import Mathlib

/-
Verification of the core rendering pipeline of the `proy2` path tracer.

The Rust source works on `f32`; the embedding models machine reals by exact
rationals, and passes the floating-point intrinsics that have no exact
rational counterpart (`sqrt`, `sin`, `cos`) as explicit function parameters
(`sqrtFn`, `sinFn`, `cosFn`).  Ambient randomness (`rand::thread_rng`) is
modelled by explicit sample arguments.  All definitions are computable and
follow the structure of the source files `math_utils.rs`, `cube.rs`,
`materials.rs`, `camera.rs`, `skybox.rs` and `raytracer.rs`.
-/

namespace Proy2

/-- A 3-component vector over exact rationals (source: `Vec3 = Vector3<f32>`). -/
structure Vec3 where
  x : ℚ
  y : ℚ
  z : ℚ
deriving DecidableEq

instance : Add Vec3 := ⟨fun a b => ⟨a.x + b.x, a.y + b.y, a.z + b.z⟩⟩

instance : Sub Vec3 := ⟨fun a b => ⟨a.x - b.x, a.y - b.y, a.z - b.z⟩⟩

instance : Neg Vec3 := ⟨fun a => ⟨-a.x, -a.y, -a.z⟩⟩

instance : SMul ℚ Vec3 := ⟨fun q a => ⟨q * a.x, q * a.y, q * a.z⟩⟩

def Vec3.dot (a b : Vec3) : ℚ := a.x * b.x + a.y * b.y + a.z * b.z

/-- Componentwise product (nalgebra `component_mul`). -/
def Vec3.compMul (a b : Vec3) : Vec3 := ⟨a.x * b.x, a.y * b.y, a.z * b.z⟩

def Vec3.zeros : Vec3 := ⟨0, 0, 0⟩

/-- Component access by axis index, as `v[axis]` in the source. -/
def Vec3.nth (v : Vec3) (axis : ℕ) : ℚ :=
  if axis = 0 then v.x else if axis = 1 then v.y else v.z

/-- The nalgebra normalization `v / |v|`, with the square root abstracted. -/
def normalize (sqrtFn : ℚ → ℚ) (v : Vec3) : Vec3 :=
  (1 / sqrtFn (v.dot v)) • v

/-- Source constant `EPSILON: f32 = 1e-6`. -/
def EPSILON : ℚ := 1 / 1000000

/-- Function `reflect` from `math_utils.rs`. -/
def reflect (incident normal : Vec3) : Vec3 :=
  incident - (2 * incident.dot normal) • normal

/-- Function `refract` from `math_utils.rs`; `sqrtFn` models `f32::sqrt`. -/
def refract (sqrtFn : ℚ → ℚ) (incident normal : Vec3) (eta : ℚ) : Option Vec3 :=
  let cos_i := -(incident.dot normal)
  let sin_t2 := eta * eta * (1 - cos_i * cos_i)
  if sin_t2 ≥ 1 then
    none
  else
    let cos_t := sqrtFn (1 - sin_t2)
    some (eta • incident + (eta * cos_i - cos_t) • normal)

/-- Function `fresnel` from `math_utils.rs`; `sqrtFn` models `f32::sqrt`. -/
def fresnel (sqrtFn : ℚ → ℚ) (cos_i eta : ℚ) : ℚ :=
  let sin_t2 := eta * eta * (1 - cos_i * cos_i)
  if sin_t2 ≥ 1 then
    1
  else
    let cos_t := sqrtFn (1 - sin_t2)
    let r_parallel := (eta * cos_i - cos_t) / (eta * cos_i + cos_t)
    let r_perpendicular := (cos_i - eta * cos_t) / (cos_i + eta * cos_t)
    1/2 * (r_parallel * r_parallel + r_perpendicular * r_perpendicular)

/-- Structure `Ray` from `math_utils.rs` (origin point and direction vector). -/
structure Ray where
  origin : Vec3
  direction : Vec3
deriving DecidableEq

/-- Constructor `Ray::new` renormalizes the direction at construction. -/
def Ray.new (sqrtFn : ℚ → ℚ) (origin direction : Vec3) : Ray :=
  ⟨origin, normalize sqrtFn direction⟩

/-- Method `Ray::at`. -/
def Ray.at (r : Ray) (t : ℚ) : Vec3 := r.origin + t • r.direction

/-- Structure `HitRecord` from `cube.rs`. -/
structure HitRecord where
  point : Vec3
  normal : Vec3
  t : ℚ
  u : ℚ
  v : ℚ
  material_index : ℕ
  front_face : Bool
deriving DecidableEq

/-- Method `HitRecord::set_face_normal`: orient the stored normal against the ray. -/
def setFaceNormal (ray : Ray) (rec : HitRecord) (outward_normal : Vec3) : HitRecord :=
  { rec with
    front_face := if ray.direction.dot outward_normal < 0 then true else false
    normal := if ray.direction.dot outward_normal < 0 then outward_normal else -outward_normal }

/-- Structure `Cube` from `cube.rs`: axis-aligned box with corner points. -/
structure Cube where
  min : Vec3
  max : Vec3
  material_index : ℕ
deriving DecidableEq

/-- One iteration of the slab loop in `Cube::hit` for a single axis, acting on
the running state `(t_near, t_far, hit_face)`; `none` is the early `return None`. -/
def slabAxis (c : Cube) (ray : Ray) (axis : ℕ) :
    ℚ × ℚ × ℤ → Option (ℚ × ℚ × ℤ)
  | (t_near, t_far, hit_face) =>
    let ray_dir := ray.direction.nth axis
    let ray_orig := ray.origin.nth axis
    let min_val := c.min.nth axis
    let max_val := c.max.nth axis
    if |ray_dir| < EPSILON then
      -- Ray is parallel to the planes
      if ray_orig < min_val ∨ ray_orig > max_val then none
      else some (t_near, t_far, hit_face)
    else
      let t1 := (min_val - ray_orig) / ray_dir
      let t2 := (max_val - ray_orig) / ray_dir
      let t_min_axis := if t1 < t2 then t1 else t2
      let t_max_axis := if t1 < t2 then t2 else t1
      let t_near' := if t_min_axis > t_near then t_min_axis else t_near
      let hit_face' :=
        if t_min_axis > t_near then
          (if t1 < t2 then -(((axis : ℕ) : ℤ) + 1) else ((axis : ℕ) : ℤ) + 1)
        else hit_face
      let t_far' := if t_max_axis < t_far then t_max_axis else t_far
      if t_near' > t_far' then none else some (t_near', t_far', hit_face')

/-- The slab loop of `Cube::hit` over a list of axes; the `Option.bind`
composition is the early `return None` of the source loop. -/
def slabLoop (c : Cube) (ray : Ray) : List ℕ → ℚ × ℚ × ℤ → Option (ℚ × ℚ × ℤ)
  | [], st => some st
  | a :: rest, st => (slabAxis c ray a st).bind (slabLoop c ray rest)

def axes3 : List ℕ := [0, 1, 2]

/-- The `for axis in 0..3` loop of `Cube::hit`, started from `(t_min, t_max, 0)`. -/
def slabResult (c : Cube) (ray : Ray) (t_min t_max : ℚ) : Option (ℚ × ℚ × ℤ) :=
  slabLoop c ray axes3 (t_min, t_max, 0)

/-- Method `Cube::get_face_normal_and_uv`. -/
def getFaceNormalAndUv (c : Cube) (point : Vec3) (face : ℤ) : Vec3 × ℚ × ℚ :=
  let size := c.max - c.min
  let relative := point - c.min
  if face.natAbs = 1 then
    let normal : Vec3 := if face > 0 then ⟨1, 0, 0⟩ else ⟨-1, 0, 0⟩
    (normal, relative.z / size.z, relative.y / size.y)
  else if face.natAbs = 2 then
    let normal : Vec3 := if face > 0 then ⟨0, 1, 0⟩ else ⟨0, -1, 0⟩
    (normal, relative.x / size.x, relative.z / size.z)
  else if face.natAbs = 3 then
    let normal : Vec3 := if face > 0 then ⟨0, 0, 1⟩ else ⟨0, 0, -1⟩
    (normal, relative.x / size.x, relative.y / size.y)
  else
    (⟨0, 1, 0⟩, 0, 0)

/-- Construction of the hit record at parameter `t` in `Cube::hit`. -/
def mkHitRecord (c : Cube) (ray : Ray) (t : ℚ) (hit_face : ℤ) : HitRecord :=
  let hit_point := ray.at t
  let nuv := getFaceNormalAndUv c hit_point hit_face
  setFaceNormal ray
    { point := hit_point
      normal := Vec3.zeros
      t := t
      u := nuv.2.1
      v := nuv.2.2
      material_index := c.material_index
      front_face := false }
    nuv.1

/-- The tail of `Cube::hit` after the slab loop: window rejection, parameter
selection and record construction. -/
def hitFromSlab (c : Cube) (ray : Ray) (t_min t_max : ℚ) : ℚ × ℚ × ℤ → Option HitRecord
  | (t_near, t_far, hit_face) =>
    if t_near > t_max ∨ t_far < t_min then none
    else
      let t := if t_near > t_min then t_near else t_far
      if t < t_min ∨ t > t_max then none
      else some (mkHitRecord c ray t hit_face)

/-- Method `Cube::hit` from `cube.rs`. -/
def cubeHit (c : Cube) (ray : Ray) (t_min t_max : ℚ) : Option HitRecord :=
  (slabResult c ray t_min t_max).bind (hitFromSlab c ray t_min t_max)

/-- Structure `Scene` from `cube.rs`. -/
structure Scene where
  cubes : List Cube
deriving DecidableEq

/-- The reduction loop of `Scene::hit`, carrying `closest_hit` and `closest_t`;
`Option.elim` is the `if let Some(hit) =` branch of the source. -/
def sceneHitAux (ray : Ray) (t_min : ℚ) :
    List Cube → Option HitRecord → ℚ → Option HitRecord
  | [], best, _ => best
  | c :: rest, best, closest_t =>
    (cubeHit c ray t_min closest_t).elim
      (sceneHitAux ray t_min rest best closest_t)
      (fun hit => sceneHitAux ray t_min rest (some hit) hit.t)

/-- Method `Scene::hit` from `cube.rs`. -/
def sceneHit (s : Scene) (ray : Ray) (t_min t_max : ℚ) : Option HitRecord :=
  sceneHitAux ray t_min s.cubes none t_max

/-- Structure `Material` from `materials.rs`. -/
structure Material where
  name : String
  albedo : Vec3
  specular : ℚ
  transparency : ℚ
  reflectivity : ℚ
  refractive_index : ℚ
  roughness : ℚ
  texture_id : Option String
deriving DecidableEq

/-- A decoded RGBA image (`image::RgbaImage`); channel values are 0..255. -/
structure Texture where
  width : ℕ
  height : ℕ
  pixels : ℕ → ℕ → ℕ × ℕ × ℕ × ℕ

/-- Structure `TextureManager` from `materials.rs`; the hash map is modelled by an
association list keyed by the texture id. -/
structure TextureManager where
  textures : List (String × Texture)

/-- Rust `as u32` conversion from a float: truncate toward zero and saturate
into the `u32` range. -/
def f32ToU32 (q : ℚ) : ℕ :=
  if q ≤ 0 then 0 else min (Rat.floor q).toNat (2 ^ 32 - 1)

/-- Rust `f32::trunc`: round toward zero. -/
def ratTrunc (q : ℚ) : ℚ :=
  if q < 0 then -((Rat.floor (-q) : ℤ) : ℚ) else ((Rat.floor q : ℤ) : ℚ)

/-- Rust `f32::fract = self - self.trunc()`. -/
def ratFract (q : ℚ) : ℚ := q - ratTrunc q

/-- Method `TextureManager::sample_texture` from `materials.rs`; `Option.elim` is the
`if let Some(texture) =` of the source, with the magenta sentinel in the
missing-texture branch. -/
def sampleTexture (tm : TextureManager) (texture_id : String) (u v : ℚ) : Vec3 :=
  (tm.textures.lookup texture_id).elim ⟨1, 0, 1⟩ fun texture =>
    let width : ℚ := (texture.width : ℚ)
    let height : ℚ := (texture.height : ℚ)
    let x := min (f32ToU32 (ratFract u * width)) (texture.width - 1)
    let y := min (f32ToU32 (ratFract v * height)) (texture.height - 1)
    let pixel := texture.pixels x y
    ⟨(pixel.1 : ℚ) / 255, (pixel.2.1 : ℚ) / 255, (pixel.2.2.1 : ℚ) / 255⟩

/-- Structure `ScatterResult` from `materials.rs`. -/
structure ScatterResult where
  scattered_ray : Ray
  attenuation : Vec3
  pdf : ℚ
deriving DecidableEq

/-- The base color of `Material::scatter`: the albedo, multiplied
componentwise with the texture sample when a texture id is present. -/
def scatterBaseColor (m : Material) (texture_manager : TextureManager) (u v : ℚ) : Vec3 :=
  match m.texture_id with
  | some texture_id => m.albedo.compMul (sampleTexture texture_manager texture_id u v)
  | none => m.albedo

/-- Method `Material::scatter` from `materials.rs`.  The one uniform draw
`rng.gen::<f32>()` is the argument `randUniform`, and the one
`random_in_unit_sphere()` draw a call can consume is `randSphere`. -/
def Material.scatter (m : Material) (sqrtFn : ℚ → ℚ) (randUniform : ℚ) (randSphere : Vec3)
    (ray : Ray) (hit_point normal : Vec3) (texture_manager : TextureManager) (u v : ℚ) :
    Option ScatterResult :=
  let base_color := scatterBaseColor m texture_manager u v
  let attenuation := base_color
  let incident := ray.direction
  let cos_i := -(incident.dot normal)
  if m.transparency > 0 ∧ m.refractive_index ≠ 1 then
    let eta := if cos_i > 0 then 1 / m.refractive_index else m.refractive_index
    let fresnel_factor := fresnel sqrtFn |cos_i| eta
    if randUniform < fresnel_factor * (1 - m.transparency) + m.reflectivity then
      -- Reflection
      let reflected := reflect incident normal
      let scattered_direction :=
        if m.roughness > 0 then normalize sqrtFn (reflected + m.roughness • randSphere)
        else reflected
      some ⟨Ray.new sqrtFn hit_point scattered_direction, attenuation, 1⟩
    else
      match refract sqrtFn incident normal eta with
      | some refracted =>
        -- Refraction
        some ⟨Ray.new sqrtFn hit_point refracted, m.transparency • attenuation, 1⟩
      | none =>
        -- Total internal reflection
        some ⟨Ray.new sqrtFn hit_point (reflect incident normal), attenuation, 1⟩
  else if m.reflectivity > 0 then
    -- Pure reflection
    let reflected := reflect incident normal
    let scattered_direction :=
      if m.roughness > 0 then normalize sqrtFn (reflected + m.roughness • randSphere)
      else reflected
    some ⟨Ray.new sqrtFn hit_point scattered_direction, m.reflectivity • attenuation, 1⟩
  else
    -- Diffuse scattering
    some ⟨Ray.new sqrtFn hit_point (normalize sqrtFn (normal + randSphere)), attenuation, 1⟩

/-- Structure `Skybox` from `skybox.rs`. -/
structure Skybox where
  top_color : Vec3
  horizon_color : Vec3
  bottom_color : Vec3
  sun_direction : Vec3
  sun_color : Vec3
  sun_size : ℚ
deriving DecidableEq

/-- Impl `Lerp for Color` from `math_utils.rs`. -/
def lerp (a b : Vec3) (t : ℚ) : Vec3 := (1 - t) • a + t • b

/-- Method `Skybox::sample`; `powf(2.0)` is squaring and `powf(0.5)` is `sqrtFn`. -/
def skyboxSample (sqrtFn : ℚ → ℚ) (sb : Skybox) (direction : Vec3) : Vec3 :=
  let dir := normalize sqrtFn direction
  let t := (dir.y + 1) * (1/2)
  let sky_color :=
    if t > 1/2 then lerp sb.horizon_color sb.top_color ((t - 1/2) * 2)
    else lerp sb.bottom_color sb.horizon_color (t * 2)
  let sun_dot := dir.dot sb.sun_direction
  if sun_dot > 1 - sb.sun_size then
    let base := (sun_dot - (1 - sb.sun_size)) / sb.sun_size
    lerp sky_color sb.sun_color (base * base)
  else
    let glow_size := sb.sun_size * 3
    if sun_dot > 1 - glow_size then
      let glow_intensity := sqrtFn ((sun_dot - (1 - glow_size)) / glow_size) * (3/10)
      lerp sky_color sb.sun_color glow_intensity
    else sky_color

/-- Structure `Raytracer` from `raytracer.rs`. -/
structure Raytracer where
  scene : Scene
  materials : List Material
  texture_manager : TextureManager
  skybox : Skybox
  max_depth : ℕ
  samples_per_pixel : ℕ

/-- Method `Raytracer::ray_color`.  The recursion is structural on the depth budget,
so the embedded function is total by construction.  `f32::INFINITY`, which the
source passes as the initial `t_max`, is modelled by the parameter `inf`; the
random draws of the nested `scatter` calls are the streams `uniforms` and
`spheres`, indexed by the remaining depth. -/
def rayColor (rt : Raytracer) (sqrtFn : ℚ → ℚ) (uniforms : ℕ → ℚ) (spheres : ℕ → Vec3)
    (inf : ℚ) : Ray → ℕ → Vec3
  | _, 0 => Vec3.zeros
  | ray, d + 1 =>
    match sceneHit rt.scene ray (1/1000) inf with
    | some hit =>
      if h : hit.material_index < rt.materials.length then
        let material := rt.materials.get ⟨hit.material_index, h⟩
        match material.scatter sqrtFn (uniforms d) (spheres d) ray hit.point hit.normal
            rt.texture_manager hit.u hit.v with
        | some scatter_result =>
          scatter_result.attenuation.compMul
            (rayColor rt sqrtFn uniforms spheres inf scatter_result.scattered_ray d)
        | none => Vec3.zeros
      else Vec3.zeros
    | none => skyboxSample sqrtFn rt.skybox ray.direction

/-- Structure `Camera` from `camera.rs`.  The source field holding the image aspect is
kept as `aspect` here. -/
structure Camera where
  position : Vec3
  target : Vec3
  up : Vec3
  fov : ℚ
  aspect : ℚ
  near : ℚ
  far : ℚ
  distance : ℚ
  theta : ℚ
  phi : ℚ
  min_distance : ℚ
  max_distance : ℚ
deriving DecidableEq

/-- The exact value of the `f32` constant `std::f32::consts::PI`. -/
def piF32 : ℚ := 13176795 / 4194304

/-- Rust `f32::clamp(lo, hi)` (callers guarantee `lo ≤ hi`). -/
def clampQ (x lo hi : ℚ) : ℚ := if x < lo then lo else if x > hi then hi else x

/-- The spherical-to-cartesian offset computed in `Camera::update_position`. -/
def sphericalOffset (sinFn cosFn : ℚ → ℚ) (c : Camera) : Vec3 :=
  ⟨c.distance * sinFn c.phi * cosFn c.theta,
   c.distance * cosFn c.phi,
   c.distance * sinFn c.phi * sinFn c.theta⟩

/-- Method `Camera::update_position`. -/
def updatePosition (sinFn cosFn : ℚ → ℚ) (c : Camera) : Camera :=
  { c with position := c.target + sphericalOffset sinFn cosFn c }

/-- Constructor `Camera::new`. -/
def Camera.new (sinFn cosFn : ℚ → ℚ) (target : Vec3) (distance fov aspect : ℚ) : Camera :=
  updatePosition sinFn cosFn
    { position := ⟨0, 0, 0⟩
      target := target
      up := ⟨0, 1, 0⟩
      fov := fov
      aspect := aspect
      near := 1/10
      far := 1000
      distance := distance
      theta := 0
      phi := piF32 * (1/4)
      min_distance := 2
      max_distance := 50 }

/-- Method `Camera::rotate`. -/
def Camera.rotate (sinFn cosFn : ℚ → ℚ) (c : Camera) (delta_theta delta_phi : ℚ) : Camera :=
  updatePosition sinFn cosFn
    { c with
      theta := c.theta + delta_theta
      phi := clampQ (c.phi + delta_phi) (1/10) (piF32 - 1/10) }

/-- Method `Camera::zoom`. -/
def Camera.zoom (sinFn cosFn : ℚ → ℚ) (c : Camera) (delta : ℚ) : Camera :=
  updatePosition sinFn cosFn
    { c with distance := clampQ (c.distance + delta) c.min_distance c.max_distance }

/-- An external camera mutation, as issued by the input layer. -/
inductive CamOp where
  | rot (delta_theta delta_phi : ℚ)
  | zoomBy (delta : ℚ)
deriving DecidableEq

def applyOp (sinFn cosFn : ℚ → ℚ) (c : Camera) : CamOp → Camera
  | .rot dt dp => Camera.rotate sinFn cosFn c dt dp
  | .zoomBy d => Camera.zoom sinFn cosFn c d

def applyOps (sinFn cosFn : ℚ → ℚ) (c : Camera) : List CamOp → Camera
  | [] => c
  | op :: rest => applyOps sinFn cosFn (applyOp sinFn cosFn c op) rest

/-! ### Concrete instances used by the witness theorems -/

def cube0 : Cube := ⟨⟨0, 0, 0⟩, ⟨1, 1, 1⟩, 0⟩

def ray0 : Ray := ⟨⟨1/2, 1/2, 5⟩, ⟨0, 0, -1⟩⟩

/-- The record `cubeHit cube0 ray0 (1/1000) 1000` produces. -/
def rec0 : HitRecord := ⟨⟨1/2, 1/2, 1⟩, ⟨0, 0, 1⟩, 4, 1/2, 1/2, 0, true⟩

def scene0 : Scene := ⟨[cube0]⟩

/-- Stand-in for `f32::sqrt` in witnesses (its value is irrelevant there). -/
def sqrt1 : ℚ → ℚ := fun _ => 1

/-- A glass-like material: transparent, refractive, with no roughness. -/
def mat0 : Material := ⟨"glass", ⟨9/10, 9/10, 1⟩, 9/10, 9/10, 1/10, 3/2, 0, none⟩

def tm0 : TextureManager := ⟨[]⟩

def tex0 : Texture := ⟨2, 2, fun _ _ => (255, 0, 0, 255)⟩

def tm1 : TextureManager := ⟨[("stone", tex0)]⟩

def zeroFn : ℚ → ℚ := fun _ => 0

def oneFn : ℚ → ℚ := fun _ => 1

/-- Whether the camera position agrees with the spherical-coordinate offset
from the target, as established by `Camera::update_position`. -/
def positionConsistent (sinFn cosFn : ℚ → ℚ) (c : Camera) : Prop :=
  c.position = c.target + sphericalOffset sinFn cosFn c

/-! ### Basic lemmas about the intersection primitives -/

theorem Vec3.add_def (a b : Vec3) : a + b = ⟨a.x + b.x, a.y + b.y, a.z + b.z⟩ := rfl

theorem Vec3.sub_def (a b : Vec3) : a - b = ⟨a.x - b.x, a.y - b.y, a.z - b.z⟩ := rfl

theorem Vec3.neg_def (a : Vec3) : -a = ⟨-a.x, -a.y, -a.z⟩ := rfl

theorem Vec3.smul_def (q : ℚ) (a : Vec3) : q • a = ⟨q * a.x, q * a.y, q * a.z⟩ := rfl

theorem ite_gt_eq_max (a b : ℚ) : (if a > b then a else b) = max a b := by
  rw [max_def]
  split_ifs with h1 h2 h3
  · exact le_antisymm h2 (le_of_lt h1)
  · rfl
  · rfl
  · exact absurd (lt_of_not_le h3) (fun hlt => h1 hlt)

theorem ite_lt_eq_min (a b : ℚ) : (if a < b then a else b) = min a b := by
  rw [min_def]
  split_ifs with h1 h2 h3
  · rfl
  · exact absurd (le_of_lt h1) h2
  · exact (le_antisymm h3 (le_of_not_lt h1)).symm
  · rfl

theorem slabLoop_nil (c : Cube) (ray : Ray) (st : ℚ × ℚ × ℤ) :
    slabLoop c ray [] st = some st := rfl

theorem slabLoop_cons (c : Cube) (ray : Ray) (a : ℕ) (rest : List ℕ)
    (st st' : ℚ × ℚ × ℤ) (h : slabAxis c ray a st = some st') :
    slabLoop c ray (a :: rest) st = slabLoop c ray rest st' := by
  show (slabAxis c ray a st).bind (slabLoop c ray rest) = _
  rw [h]
  rfl

theorem slabLoop_cons_none (c : Cube) (ray : Ray) (a : ℕ) (rest : List ℕ)
    (st : ℚ × ℚ × ℤ) (h : slabAxis c ray a st = none) :
    slabLoop c ray (a :: rest) st = none := by
  show (slabAxis c ray a st).bind (slabLoop c ray rest) = _
  rw [h]
  rfl

theorem cubeHit_eq_of_slab (c : Cube) (ray : Ray) (t_min t_max tn tf : ℚ) (face : ℤ)
    (h : slabResult c ray t_min t_max = some (tn, tf, face)) :
    cubeHit c ray t_min t_max = hitFromSlab c ray t_min t_max (tn, tf, face) := by
  show (slabResult c ray t_min t_max).bind (hitFromSlab c ray t_min t_max) = _
  rw [h]
  rfl

theorem cubeHit_eq_none_of_slab (c : Cube) (ray : Ray) (t_min t_max : ℚ)
    (h : slabResult c ray t_min t_max = none) :
    cubeHit c ray t_min t_max = none := by
  show (slabResult c ray t_min t_max).bind (hitFromSlab c ray t_min t_max) = _
  rw [h]
  rfl

theorem hitFromSlab_def (c : Cube) (ray : Ray) (t_min t_max tn tf : ℚ) (face : ℤ) :
    hitFromSlab c ray t_min t_max (tn, tf, face) =
      if tn > t_max ∨ tf < t_min then none
      else
        if (if tn > t_min then tn else tf) < t_min ∨ (if tn > t_min then tn else tf) > t_max
        then none
        else some (mkHitRecord c ray (if tn > t_min then tn else tf) face) := rfl

theorem sceneHitAux_nil (ray : Ray) (t_min : ℚ) (best : Option HitRecord) (ct : ℚ) :
    sceneHitAux ray t_min [] best ct = best := rfl

theorem sceneHitAux_cons (ray : Ray) (t_min : ℚ) (c : Cube) (rest : List Cube)
    (best : Option HitRecord) (ct : ℚ) :
    sceneHitAux ray t_min (c :: rest) best ct =
      (cubeHit c ray t_min ct).elim
        (sceneHitAux ray t_min rest best ct)
        (fun hit => sceneHitAux ray t_min rest (some hit) hit.t) := rfl

theorem sceneHitAux_cons_some (ray : Ray) (t_min : ℚ) (c : Cube) (rest : List Cube)
    (best : Option HitRecord) (ct : ℚ) (hit : HitRecord)
    (h : cubeHit c ray t_min ct = some hit) :
    sceneHitAux ray t_min (c :: rest) best ct = sceneHitAux ray t_min rest (some hit) hit.t := by
  rw [sceneHitAux_cons, h]
  rfl

theorem sceneHitAux_cons_none (ray : Ray) (t_min : ℚ) (c : Cube) (rest : List Cube)
    (best : Option HitRecord) (ct : ℚ)
    (h : cubeHit c ray t_min ct = none) :
    sceneHitAux ray t_min (c :: rest) best ct = sceneHitAux ray t_min rest best ct := by
  rw [sceneHitAux_cons, h]
  rfl

theorem ite_lt_flip_eq_max (a b : ℚ) : (if a < b then b else a) = max a b := by
  rw [max_def]
  split_ifs with h1 h2 h3
  · rfl
  · exact absurd (le_of_lt h1) h2
  · exact le_antisymm h3 (le_of_not_lt h1)
  · rfl

/-- Behavior of `slabAxis` on an axis the ray is parallel to. -/
theorem slabAxis_par (c : Cube) (ray : Ray) (a : ℕ) (n f : ℚ) (face : ℤ)
    (hpar : |ray.direction.nth a| < EPSILON) :
    slabAxis c ray a (n, f, face) =
      if ray.origin.nth a < c.min.nth a ∨ ray.origin.nth a > c.max.nth a then none
      else some (n, f, face) := by
  simp only [slabAxis]
  rw [if_pos hpar]

/-- Closed form of `slabAxis` on a non-parallel axis: the running near bound
is tightened by `max`, the far bound by `min`. -/
theorem slabAxis_nonpar (c : Cube) (ray : Ray) (a : ℕ) (n f : ℚ) (face : ℤ)
    (hpar : ¬ |ray.direction.nth a| < EPSILON) (t1 t2 : ℚ)
    (h1 : t1 = (c.min.nth a - ray.origin.nth a) / ray.direction.nth a)
    (h2 : t2 = (c.max.nth a - ray.origin.nth a) / ray.direction.nth a) :
    slabAxis c ray a (n, f, face) =
      if max (min t1 t2) n > min (max t2 t1) f then none
      else some (max (min t1 t2) n, min (max t2 t1) f,
        if min t1 t2 > n then (if t1 < t2 then -((a : ℤ) + 1) else (a : ℤ) + 1) else face) := by
  subst h1
  subst h2
  simp only [slabAxis, ite_gt_eq_max, ite_lt_eq_min, ite_lt_flip_eq_max]
  rw [if_neg hpar]

/-- A successful `slabAxis` step weakly tightens the slab interval. -/
theorem slabAxis_mono (c : Cube) (ray : Ray) (a : ℕ) (n f : ℚ) (face : ℤ)
    (n2 f2 : ℚ) (face2 : ℤ)
    (h : slabAxis c ray a (n, f, face) = some (n2, f2, face2)) :
    n ≤ n2 ∧ f2 ≤ f := by
  by_cases hpar : |ray.direction.nth a| < EPSILON
  · rw [slabAxis_par c ray a n f face hpar] at h
    by_cases hout : ray.origin.nth a < c.min.nth a ∨ ray.origin.nth a > c.max.nth a
    · rw [if_pos hout] at h
      exact absurd h (by simp)
    · rw [if_neg hout] at h
      simp only [Option.some.injEq, Prod.mk.injEq] at h
      obtain ⟨e1, e2, _⟩ := h
      rw [← e1, ← e2]
      exact ⟨le_refl _, le_refl _⟩
  · rw [slabAxis_nonpar c ray a n f face hpar _ _ rfl rfl] at h
    set t1 := (c.min.nth a - ray.origin.nth a) / ray.direction.nth a with ht1
    set t2 := (c.max.nth a - ray.origin.nth a) / ray.direction.nth a with ht2
    by_cases hc : max (min t1 t2) n > min (max t2 t1) f
    · rw [if_pos hc] at h
      exact absurd h (by simp)
    · rw [if_neg hc] at h
      simp only [Option.some.injEq, Prod.mk.injEq] at h
      obtain ⟨e1, e2, _⟩ := h
      rw [← e1, ← e2]
      exact ⟨le_max_right _ _, min_le_right _ _⟩

/-- Relation between a `slabAxis` step with far bound `f` and with the
tightened far bound `min f w`: the near bound and face agree, the far bound
is the tightened one, and the tightened run dies exactly when the near bound
passed `w`. -/
theorem slabAxis_shrink (c : Cube) (ray : Ray) (a : ℕ) (n f w : ℚ) (face : ℤ) :
    (slabAxis c ray a (n, f, face) = none → slabAxis c ray a (n, min f w, face) = none) ∧
    (∀ n2 f2 face2, slabAxis c ray a (n, f, face) = some (n2, f2, face2) →
      (w < n2 ∧ slabAxis c ray a (n, min f w, face) = none) ∨
      slabAxis c ray a (n, min f w, face) = some (n2, min f2 w, face2)) := by
  by_cases hpar : |ray.direction.nth a| < EPSILON
  · rw [slabAxis_par c ray a n f face hpar, slabAxis_par c ray a n (min f w) face hpar]
    split_ifs with hout
    · exact ⟨fun _ => rfl, fun n2 f2 face2 h => absurd h (by simp)⟩
    · refine ⟨fun h => absurd h (by simp), fun n2 f2 face2 h => ?_⟩
      simp only [Option.some.injEq, Prod.mk.injEq] at h
      obtain ⟨e1, e2, e3⟩ := h
      rw [← e1, ← e2, ← e3]
      exact Or.inr rfl
  · rw [slabAxis_nonpar c ray a n f face hpar _ _ rfl rfl,
      slabAxis_nonpar c ray a n (min f w) face hpar _ _ rfl rfl]
    set t1 := (c.min.nth a - ray.origin.nth a) / ray.direction.nth a with ht1
    set t2 := (c.max.nth a - ray.origin.nth a) / ray.direction.nth a with ht2
    have hassoc : min (max t2 t1) (min f w) = min (min (max t2 t1) f) w :=
      (min_assoc _ _ _).symm
    rw [hassoc]
    by_cases hc1 : max (min t1 t2) n > min (max t2 t1) f
    · -- full run rejects, so the tightened run rejects as well
      have hc2 : max (min t1 t2) n > min (min (max t2 t1) f) w :=
        lt_of_le_of_lt (min_le_left _ _) hc1
      rw [if_pos hc1, if_pos hc2]
      exact ⟨fun _ => rfl, fun n2 f2 face2 h => absurd h (by simp)⟩
    · rw [if_neg hc1]
      by_cases hc2 : max (min t1 t2) n > min (min (max t2 t1) f) w
      · -- full run survives, tightened run rejects: the near bound passed w
        rw [if_pos hc2]
        refine ⟨fun h => absurd h (by simp), fun n2 f2 face2 h => ?_⟩
        simp only [Option.some.injEq, Prod.mk.injEq] at h
        obtain ⟨e1, _, _⟩ := h
        refine Or.inl ⟨?_, rfl⟩
        rw [← e1]
        rcases min_lt_iff.mp hc2 with hlt | hlt
        · exact absurd hlt hc1
        · exact hlt
      · -- both runs survive
        rw [if_neg hc2]
        refine ⟨fun h => absurd h (by simp), fun n2 f2 face2 h => ?_⟩
        simp only [Option.some.injEq, Prod.mk.injEq] at h
        obtain ⟨e1, e2, e3⟩ := h
        rw [← e1, ← e2, ← e3]
        exact Or.inr rfl

/-- A completed slab loop weakly tightens the running interval. -/
theorem slabLoop_mono (c : Cube) (ray : Ray) (axes : List ℕ) :
    ∀ (n f : ℚ) (face : ℤ) (n1 f1 : ℚ) (face1 : ℤ),
      slabLoop c ray axes (n, f, face) = some (n1, f1, face1) → n ≤ n1 ∧ f1 ≤ f := by
  induction axes with
  | nil =>
    intro n f face n1 f1 face1 h
    rw [slabLoop_nil] at h
    simp only [Option.some.injEq, Prod.mk.injEq] at h
    obtain ⟨e1, e2, _⟩ := h
    rw [← e1, ← e2]
    exact ⟨le_refl _, le_refl _⟩
  | cons a rest ih =>
    intro n f face n1 f1 face1 h
    cases hax : slabAxis c ray a (n, f, face) with
    | none =>
      rw [slabLoop_cons_none _ _ _ _ _ hax] at h
      exact absurd h (by simp)
    | some st2 =>
      obtain ⟨n2, f2, face2⟩ := st2
      rw [slabLoop_cons _ _ _ _ _ _ hax] at h
      have h1 := slabAxis_mono c ray a n f face n2 f2 face2 hax
      have h2 := ih n2 f2 face2 n1 f1 face1 h
      exact ⟨le_trans h1.1 h2.1, le_trans h2.2 h1.2⟩

/-- Relation between a slab loop run with far bound `f` and the run with far
bound tightened to `min f w`: the tightened run yields the same near bound and
face with its far bound tightened, and dies exactly when the near bound of the
full run passed `w`. -/
theorem slabLoop_shrink (c : Cube) (ray : Ray) (w : ℚ) (axes : List ℕ) :
    ∀ (n f : ℚ) (face : ℤ),
      (slabLoop c ray axes (n, f, face) = none →
        slabLoop c ray axes (n, min f w, face) = none) ∧
      (∀ n1 f1 face1, slabLoop c ray axes (n, f, face) = some (n1, f1, face1) →
        (w < n1 ∧ slabLoop c ray axes (n, min f w, face) = none) ∨
        slabLoop c ray axes (n, min f w, face) = some (n1, min f1 w, face1)) := by
  induction axes with
  | nil =>
    intro n f face
    refine ⟨fun h => by rw [slabLoop_nil] at h; exact Option.noConfusion h,
      fun n1 f1 face1 h => ?_⟩
    rw [slabLoop_nil] at h
    simp only [Option.some.injEq, Prod.mk.injEq] at h
    obtain ⟨e1, e2, e3⟩ := h
    rw [← e1, ← e2, ← e3]
    exact Or.inr (slabLoop_nil c ray _)
  | cons a rest ih =>
    intro n f face
    cases hax : slabAxis c ray a (n, f, face) with
    | none =>
      have haxw := (slabAxis_shrink c ray a n f w face).1 hax
      rw [slabLoop_cons_none _ _ _ _ _ hax, slabLoop_cons_none _ _ _ _ _ haxw]
      exact ⟨fun _ => rfl, fun n1 f1 face1 h => absurd h (by simp)⟩
    | some st2 =>
      obtain ⟨n2, f2, face2⟩ := st2
      rw [slabLoop_cons _ _ _ _ _ _ hax]
      rcases (slabAxis_shrink c ray a n f w face).2 n2 f2 face2 hax with ⟨hw, haxw⟩ | haxw
      · -- the tightened run already died on this axis
        rw [slabLoop_cons_none _ _ _ _ _ haxw]
        refine ⟨fun _ => rfl, fun n1 f1 face1 h => ?_⟩
        have hm := slabLoop_mono c ray rest n2 f2 face2 n1 f1 face1 h
        exact Or.inl ⟨lt_of_lt_of_le hw hm.1, rfl⟩
      · -- both runs take this axis; recurse
        rw [slabLoop_cons _ _ _ _ _ _ haxw]
        exact ih n2 f2 face2

theorem setFaceNormal_t (ray : Ray) (rec : HitRecord) (n : Vec3) :
    (setFaceNormal ray rec n).t = rec.t := rfl

theorem mkHitRecord_t (c : Cube) (ray : Ray) (t : ℚ) (face : ℤ) :
    (mkHitRecord c ray t face).t = t := rfl

theorem dot_neg_right (a b : Vec3) : a.dot (-b) = -(a.dot b) := by
  show a.x * (-b.x) + a.y * (-b.y) + a.z * (-b.z) = -(a.x * b.x + a.y * b.y + a.z * b.z)
  ring

/-- The `set_face_normal` reorientation makes the stored normal oppose the ray. -/
theorem setFaceNormal_opposes (ray : Ray) (rec : HitRecord) (n : Vec3) :
    ray.direction.dot (setFaceNormal ray rec n).normal ≤ 0 := by
  show ray.direction.dot (if ray.direction.dot n < 0 then n else -n) ≤ 0
  split_ifs with h
  · exact le_of_lt h
  · rw [dot_neg_right]
    simpa using le_of_not_lt h

theorem mkHitRecord_opposes (c : Cube) (ray : Ray) (t : ℚ) (face : ℤ) :
    ray.direction.dot (mkHitRecord c ray t face).normal ≤ 0 :=
  setFaceNormal_opposes ray _ _

/-- Structure of a successful `Cube::hit`: the slab phase succeeded, the hit
parameter is selected between `t_near` and `t_far` by the `t_near > t_min`
test, it lies in the query window, and the record is the one built at `t`. -/
theorem cubeHit_some_elim (c : Cube) (ray : Ray) (t_min t_max : ℚ) (r : HitRecord)
    (h : cubeHit c ray t_min t_max = some r) :
    ∃ t_near t_far hit_face,
      slabResult c ray t_min t_max = some (t_near, t_far, hit_face) ∧
      r = mkHitRecord c ray (if t_near > t_min then t_near else t_far) hit_face ∧
      r.t = (if t_near > t_min then t_near else t_far) ∧
      t_min ≤ r.t ∧ r.t ≤ t_max := by
  cases hs : slabResult c ray t_min t_max with
  | none => rw [cubeHit_eq_none_of_slab c ray t_min t_max hs] at h; exact absurd h (by simp)
  | some st =>
    obtain ⟨tn, tf, face⟩ := st
    rw [cubeHit_eq_of_slab c ray t_min t_max tn tf face hs, hitFromSlab_def] at h
    by_cases h1 : tn > t_max ∨ tf < t_min
    · rw [if_pos h1] at h; exact absurd h (by simp)
    · rw [if_neg h1] at h
      by_cases h2 : (if tn > t_min then tn else tf) < t_min ∨
          (if tn > t_min then tn else tf) > t_max
      · rw [if_pos h2] at h; exact absurd h (by simp)
      · rw [if_neg h2] at h
        push_neg at h2
        have hr : r = mkHitRecord c ray (if tn > t_min then tn else tf) face :=
          (Option.some.injEq _ _ ▸ h).symm
        refine ⟨tn, tf, face, rfl, hr, ?_, ?_, ?_⟩
        · rw [hr, mkHitRecord_t]
        · rw [hr, mkHitRecord_t]; exact h2.1
        · rw [hr, mkHitRecord_t]; exact h2.2

/-- A successful `Cube::hit` record has its normal opposing the ray. -/
theorem cubeHit_normal_opposes (c : Cube) (ray : Ray) (t_min t_max : ℚ) (r : HitRecord)
    (h : cubeHit c ray t_min t_max = some r) :
    ray.direction.dot r.normal ≤ 0 := by
  obtain ⟨tn, tf, face, _, hr, _⟩ := cubeHit_some_elim c ray t_min t_max r h
  rw [hr]
  exact mkHitRecord_opposes c ray _ face

/-- Range of a successful `Cube::hit` parameter. -/
theorem cubeHit_t_range (c : Cube) (ray : Ray) (t_min t_max : ℚ) (r : HitRecord)
    (h : cubeHit c ray t_min t_max = some r) :
    t_min ≤ r.t ∧ r.t ≤ t_max := by
  obtain ⟨_, _, _, _, _, _, h1, h2⟩ := cubeHit_some_elim c ray t_min t_max r h
  exact ⟨h1, h2⟩

/-- Shrinking the query window of `Cube::hit` can only move the reported
parameter down: a hit through the shrunk window `[t_min, w]` guarantees a hit
through `[t_min, t_max]` with a parameter at least as large. -/
theorem cubeHit_shrink_some (c : Cube) (ray : Ray) (t_min w t_max : ℚ) (hw : w ≤ t_max)
    (r : HitRecord) (h : cubeHit c ray t_min w = some r) :
    ∃ rT, cubeHit c ray t_min t_max = some rT ∧ r.t ≤ rT.t := by
  have hmin : min t_max w = w := min_eq_right hw
  cases hsT : slabResult c ray t_min t_max with
  | none =>
    have hnone : slabLoop c ray axes3 (t_min, min t_max w, 0) = none :=
      (slabLoop_shrink c ray w axes3 t_min t_max 0).1 hsT
    rw [hmin] at hnone
    have hsw : slabResult c ray t_min w = none := hnone
    rw [cubeHit_eq_none_of_slab _ _ _ _ hsw] at h
    exact Option.noConfusion h
  | some st =>
    obtain ⟨n1, f1, face1⟩ := st
    have hmono := slabLoop_mono c ray axes3 t_min t_max 0 n1 f1 face1 hsT
    rcases (slabLoop_shrink c ray w axes3 t_min t_max 0).2 n1 f1 face1 hsT with
      ⟨hwn, hnone⟩ | hsome
    · rw [hmin] at hnone
      have hsw : slabResult c ray t_min w = none := hnone
      rw [cubeHit_eq_none_of_slab _ _ _ _ hsw] at h
      exact Option.noConfusion h
    · rw [hmin] at hsome
      have hsw : slabResult c ray t_min w = some (n1, min f1 w, face1) := hsome
      rw [cubeHit_eq_of_slab _ _ _ _ _ _ _ hsw, hitFromSlab_def] at h
      by_cases hc1 : n1 > w ∨ min f1 w < t_min
      · rw [if_pos hc1] at h
        exact Option.noConfusion h
      · rw [if_neg hc1] at h
        push_neg at hc1
        obtain ⟨hn1w, htmin⟩ := hc1
        by_cases hsel : n1 > t_min
        · rw [if_pos hsel] at h
          by_cases hc2 : n1 < t_min ∨ n1 > w
          · rw [if_pos hc2] at h
            exact Option.noConfusion h
          · rw [if_neg hc2] at h
            have hr := Option.some.inj h
            refine ⟨mkHitRecord c ray n1 face1, ?_, ?_⟩
            · rw [cubeHit_eq_of_slab _ _ _ _ _ _ _ hsT, hitFromSlab_def]
              rw [if_neg (show ¬(n1 > t_max ∨ f1 < t_min) by
                push_neg
                exact ⟨le_trans hn1w hw, le_trans htmin (min_le_left _ _)⟩)]
              rw [if_pos hsel]
              rw [if_neg (show ¬(n1 < t_min ∨ n1 > t_max) by
                push_neg
                exact ⟨le_of_lt hsel, le_trans hn1w hw⟩)]
            · rw [← hr]
        · rw [if_neg hsel] at h
          by_cases hc2 : min f1 w < t_min ∨ min f1 w > w
          · rw [if_pos hc2] at h
            exact Option.noConfusion h
          · rw [if_neg hc2] at h
            have hr := Option.some.inj h
            refine ⟨mkHitRecord c ray f1 face1, ?_, ?_⟩
            · rw [cubeHit_eq_of_slab _ _ _ _ _ _ _ hsT, hitFromSlab_def]
              rw [if_neg (show ¬(n1 > t_max ∨ f1 < t_min) by
                push_neg
                exact ⟨le_trans hn1w hw, le_trans htmin (min_le_left _ _)⟩)]
              rw [if_neg hsel]
              rw [if_neg (show ¬(f1 < t_min ∨ f1 > t_max) by
                push_neg
                exact ⟨le_trans htmin (min_le_left _ _), hmono.2⟩)]
            · rw [← hr, mkHitRecord_t, mkHitRecord_t]
              exact min_le_left _ _

/-- If `Cube::hit` misses through the shrunk window `[t_min, w]` but hits
through `[t_min, t_max]`, the reported parameter is at least `w`. -/
theorem cubeHit_none_mono (c : Cube) (ray : Ray) (t_min w t_max : ℚ)
    (h1w : t_min ≤ w) (hw : w ≤ t_max)
    (hn : cubeHit c ray t_min w = none) (r : HitRecord)
    (h : cubeHit c ray t_min t_max = some r) :
    w ≤ r.t := by
  have hmin : min t_max w = w := min_eq_right hw
  cases hsT : slabResult c ray t_min t_max with
  | none =>
    rw [cubeHit_eq_none_of_slab _ _ _ _ hsT] at h
    exact Option.noConfusion h
  | some st =>
    obtain ⟨n1, f1, face1⟩ := st
    have hmono := slabLoop_mono c ray axes3 t_min t_max 0 n1 f1 face1 hsT
    rw [cubeHit_eq_of_slab _ _ _ _ _ _ _ hsT, hitFromSlab_def] at h
    by_cases hc1 : n1 > t_max ∨ f1 < t_min
    · rw [if_pos hc1] at h
      exact Option.noConfusion h
    · rw [if_neg hc1] at h
      push_neg at hc1
      obtain ⟨hn1T, hf1T⟩ := hc1
      rcases (slabLoop_shrink c ray w axes3 t_min t_max 0).2 n1 f1 face1 hsT with
        ⟨hwn, hnone⟩ | hsome
      · by_cases hsel : n1 > t_min
        · rw [if_pos hsel] at h
          by_cases hc2 : n1 < t_min ∨ n1 > t_max
          · rw [if_pos hc2] at h
            exact Option.noConfusion h
          · rw [if_neg hc2] at h
            have hr := Option.some.inj h
            rw [← hr, mkHitRecord_t]
            exact le_of_lt hwn
        · exact absurd (lt_of_lt_of_le hwn (le_of_not_lt hsel)) (not_lt.mpr h1w)
      · rw [hmin] at hsome
        have hsw : slabResult c ray t_min w = some (n1, min f1 w, face1) := hsome
        rw [cubeHit_eq_of_slab _ _ _ _ _ _ _ hsw, hitFromSlab_def] at hn
        by_cases hcw1 : n1 > w ∨ min f1 w < t_min
        · rcases hcw1 with hgt | hlt
          · have hsel : n1 > t_min := lt_of_le_of_lt h1w hgt
            rw [if_pos hsel] at h
            by_cases hc2 : n1 < t_min ∨ n1 > t_max
            · rw [if_pos hc2] at h
              exact Option.noConfusion h
            · rw [if_neg hc2] at h
              have hr := Option.some.inj h
              rw [← hr, mkHitRecord_t]
              exact le_of_lt hgt
          · rcases min_lt_iff.mp hlt with hlt2 | hlt2
            · exact absurd hlt2 (not_lt.mpr hf1T)
            · exact absurd hlt2 (not_lt.mpr h1w)
        · rw [if_neg hcw1] at hn
          push_neg at hcw1
          obtain ⟨hn1w, hminw⟩ := hcw1
          by_cases hsel : n1 > t_min
          · rw [if_pos hsel] at hn
            by_cases hcw2 : n1 < t_min ∨ n1 > w
            · rcases hcw2 with hlt | hgt
              · exact absurd hlt (not_lt.mpr (le_of_lt hsel))
              · exact absurd hgt (not_lt.mpr hn1w)
            · rw [if_neg hcw2] at hn
              exact Option.noConfusion hn
          · rw [if_neg hsel] at hn
            by_cases hcw2 : min f1 w < t_min ∨ min f1 w > w
            · rcases hcw2 with hlt | hgt
              · exact absurd hlt (not_lt.mpr hminw)
              · exact absurd hgt (not_lt.mpr (min_le_right _ _))
            · rw [if_neg hcw2] at hn
              exact Option.noConfusion hn

/-- Full specification of the closest-hit reduction loop of `Scene::hit`.
`Q` is the invariant carried by the incoming best record. -/
theorem sceneHitAux_spec (ray : Ray) (t_min t_max : ℚ) :
    ∀ (cubes : List Cube) (Q : HitRecord → Prop) (best : Option HitRecord) (ct : ℚ),
      (best = none → ct = t_max) →
      (∀ b, best = some b → b.t = ct ∧ t_min ≤ ct ∧ ct ≤ t_max ∧ Q b) →
      (sceneHitAux ray t_min cubes best ct = none →
        best = none ∧ ∀ c ∈ cubes, cubeHit c ray t_min t_max = none) ∧
      (∀ r, sceneHitAux ray t_min cubes best ct = some r →
        t_min ≤ r.t ∧ r.t ≤ t_max ∧ r.t ≤ ct ∧
        (Q r ∨ ∃ c ∈ cubes, ∃ w, w ≤ t_max ∧ cubeHit c ray t_min w = some r) ∧
        (∀ c ∈ cubes, ∀ rc, cubeHit c ray t_min t_max = some rc → r.t ≤ rc.t)) := by
  intro cubes
  induction cubes with
  | nil =>
    intro Q best ct hnone hsome
    rw [sceneHitAux_nil]
    constructor
    · intro hb
      exact ⟨hb, fun c hc => absurd hc (List.not_mem_nil c)⟩
    · intro r hb
      obtain ⟨hbt, h1, h2, hQ⟩ := hsome r hb
      exact ⟨by rw [hbt]; exact h1, by rw [hbt]; exact h2, le_of_eq hbt, Or.inl hQ,
        fun c hc => absurd hc (List.not_mem_nil c)⟩
  | cons c rest ih =>
    intro Q best ct hnone hsome
    have hct_le : ct ≤ t_max := by
      cases hb : best with
      | none => exact le_of_eq (hnone hb)
      | some b => exact (hsome b hb).2.2.1
    cases hcube : cubeHit c ray t_min ct with
    | some hit =>
      rw [sceneHitAux_cons_some ray t_min c rest best ct hit hcube]
      have hrange := cubeHit_t_range c ray t_min ct hit hcube
      have hnone2 : (some hit : Option HitRecord) = none → hit.t = t_max := by
        intro hx
        exact absurd hx (by simp)
      have hsome2 : ∀ b, (some hit : Option HitRecord) = some b →
          b.t = hit.t ∧ t_min ≤ hit.t ∧ hit.t ≤ t_max ∧
          (Q b ∨ ∃ w, w ≤ t_max ∧ cubeHit c ray t_min w = some b) := by
        intro b hb
        have hb2 := Option.some.inj hb
        exact ⟨by rw [← hb2], hrange.1, le_trans hrange.2 hct_le,
          Or.inr ⟨ct, hct_le, by rw [← hb2]; exact hcube⟩⟩
      have IH := ih (fun b => Q b ∨ ∃ w, w ≤ t_max ∧ cubeHit c ray t_min w = some b)
        (some hit) hit.t hnone2 hsome2
      constructor
      · intro hres
        obtain ⟨habs, _⟩ := IH.1 hres
        exact absurd habs (by simp)
      · intro r hres
        obtain ⟨h1, h2, h3, hQ, hmin⟩ := IH.2 r hres
        refine ⟨h1, h2, le_trans h3 hrange.2, ?_, ?_⟩
        · rcases hQ with (hq | hw) | hmem
          · exact Or.inl hq
          · obtain ⟨w, hw1, hw2⟩ := hw
            exact Or.inr ⟨c, List.mem_cons_self c rest, w, hw1, hw2⟩
          · obtain ⟨c2, hc2, w, hw1, hw2⟩ := hmem
            exact Or.inr ⟨c2, List.mem_cons_of_mem c hc2, w, hw1, hw2⟩
        · intro c2 hc2 rc hrc
          rcases List.mem_cons.mp hc2 with heq | hc2r
          · subst heq
            obtain ⟨rT, hrT, hle⟩ := cubeHit_shrink_some c2 ray t_min ct t_max hct_le hit hcube
            have heq2 : rT = rc := by
              rw [hrT] at hrc
              exact Option.some.inj hrc
            rw [← heq2]
            exact le_trans h3 hle
          · exact hmin c2 hc2r rc hrc
    | none =>
      rw [sceneHitAux_cons_none ray t_min c rest best ct hcube]
      have IH := ih Q best ct hnone hsome
      constructor
      · intro hres
        obtain ⟨hb, hall⟩ := IH.1 hres
        refine ⟨hb, ?_⟩
        intro c2 hc2
        rcases List.mem_cons.mp hc2 with heq | hc2r
        · subst heq
          rw [← hnone hb]
          exact hcube
        · exact hall c2 hc2r
      · intro r hres
        obtain ⟨h1, h2, h3, hQ, hmin⟩ := IH.2 r hres
        refine ⟨h1, h2, h3, ?_, ?_⟩
        · rcases hQ with hq | ⟨c2, hc2, w, hw1, hw2⟩
          · exact Or.inl hq
          · exact Or.inr ⟨c2, List.mem_cons_of_mem c hc2, w, hw1, hw2⟩
        · intro c2 hc2 rc hrc
          rcases List.mem_cons.mp hc2 with heq | hc2r
          · subst heq
            have htmin_ct : t_min ≤ ct := by
              cases hb : best with
              | none =>
                have hrr := cubeHit_t_range c2 ray t_min t_max rc hrc
                rw [hnone hb]
                exact le_trans hrr.1 hrr.2
              | some b => exact (hsome b hb).2.1
            have hge := cubeHit_none_mono c2 ray t_min ct t_max htmin_ct hct_le hcube rc hrc
            exact le_trans h3 hge
          · exact hmin c2 hc2r rc hrc

/-- If every primitive misses through the full window, the reduction loop
started empty returns `none`. -/
theorem sceneHitAux_all_none (ray : Ray) (t_min t_max : ℚ) :
    ∀ cubes : List Cube, (∀ c ∈ cubes, cubeHit c ray t_min t_max = none) →
      sceneHitAux ray t_min cubes none t_max = none := by
  intro cubes
  induction cubes with
  | nil => intro _; exact sceneHitAux_nil ray t_min none t_max
  | cons c rest ih =>
    intro hall
    rw [sceneHitAux_cons_none ray t_min c rest none t_max
      (hall c (List.mem_cons_self c rest))]
    exact ih (fun c2 hc2 => hall c2 (List.mem_cons_of_mem c hc2))

/-- Concrete evaluation: the box `cube0` is hit by `ray0` at `t = 4`. -/
theorem cubeHit_cube0_eval : cubeHit cube0 ray0 (1/1000) 1000 = some rec0 := by
  have h0 : slabAxis cube0 ray0 0 (1/1000, 1000, 0) = some (1/1000, 1000, 0) := by
    norm_num [slabAxis, Vec3.nth, EPSILON, cube0, ray0]
  have h1 : slabAxis cube0 ray0 1 (1/1000, 1000, 0) = some (1/1000, 1000, 0) := by
    norm_num [slabAxis, Vec3.nth, EPSILON, cube0, ray0]
  have h2 : slabAxis cube0 ray0 2 (1/1000, 1000, 0) = some (4, 5, 3) := by
    norm_num [slabAxis, Vec3.nth, EPSILON, cube0, ray0]
  have hs : slabResult cube0 ray0 (1/1000) 1000 = some (4, 5, 3) := by
    show slabLoop cube0 ray0 axes3 (1/1000, 1000, 0) = _
    rw [show axes3 = [0, 1, 2] from rfl]
    rw [slabLoop_cons _ _ _ _ _ _ h0, slabLoop_cons _ _ _ _ _ _ h1,
      slabLoop_cons _ _ _ _ _ _ h2, slabLoop_nil]
  have ht : cubeHit cube0 ray0 (1/1000) 1000 = some (mkHitRecord cube0 ray0 4 3) := by
    rw [cubeHit_eq_of_slab _ _ _ _ _ _ _ hs, hitFromSlab_def]
    norm_num
  rw [ht]
  norm_num [mkHitRecord, getFaceNormalAndUv, setFaceNormal, Ray.at, Vec3.dot,
    Vec3.zeros, cube0, ray0, rec0, Vec3.add_def, Vec3.sub_def, Vec3.neg_def,
    Vec3.smul_def]

/-- Concrete evaluation: the one-box scene `scene0` reports the `cube0` hit. -/
theorem sceneHit_scene0_eval : sceneHit scene0 ray0 (1/1000) 1000 = some rec0 := by
  show sceneHitAux ray0 (1/1000) [cube0] none 1000 = some rec0
  rw [sceneHitAux_cons_some ray0 (1/1000) cube0 [] none 1000 rec0 cubeHit_cube0_eval,
    sceneHitAux_nil]

/-! ### Claim C1 -/

/-- C1: whenever `Cube::hit` returns a record, the parameter `t` lies in the
query window `[t_min, t_max]`, and it equals the tightened near bound
`t_near` when `t_near` exceeds `t_min`, otherwise the far bound `t_far`. -/
theorem claim_C1 (c : Cube) (ray : Ray) (t_min t_max : ℚ) (r : HitRecord)
    (h : cubeHit c ray t_min t_max = some r) :
    (t_min ≤ r.t ∧ r.t ≤ t_max) ∧
    ∃ t_near t_far hit_face,
      slabResult c ray t_min t_max = some (t_near, t_far, hit_face) ∧
      r.t = (if t_near > t_min then t_near else t_far) := by
  obtain ⟨tn, tf, face, hs, _, hsel, h1, h2⟩ := cubeHit_some_elim c ray t_min t_max r h
  exact ⟨⟨h1, h2⟩, tn, tf, face, hs, hsel⟩

/-- Witness for C1 at a concrete box and ray. -/
theorem claim_C1_witness :
    (((1:ℚ)/1000 ≤ rec0.t ∧ rec0.t ≤ 1000) ∧
      ∃ t_near t_far hit_face,
        slabResult cube0 ray0 (1/1000) 1000 = some (t_near, t_far, hit_face) ∧
        rec0.t = (if t_near > 1/1000 then t_near else t_far)) :=
  claim_C1 cube0 ray0 (1/1000) 1000 rec0 cubeHit_cube0_eval

/-! ### Claims C2 and C3 -/

/-- C2: whenever `Scene::hit` returns a record, the record was produced by one
of the scene's primitives (through the running search window), its parameter
lies in the query window and is minimal among the parameters of all
primitives hit through the full window; and `Scene::hit` returns `none`
exactly when no primitive is hit through the full window. -/
theorem claim_C2 (s : Scene) (ray : Ray) (t_min t_max : ℚ) :
    (∀ r, sceneHit s ray t_min t_max = some r →
      (t_min ≤ r.t ∧ r.t ≤ t_max) ∧
      (∃ c ∈ s.cubes, ∃ w, w ≤ t_max ∧ cubeHit c ray t_min w = some r) ∧
      (∀ c ∈ s.cubes, ∀ rc, cubeHit c ray t_min t_max = some rc → r.t ≤ rc.t)) ∧
    (sceneHit s ray t_min t_max = none ↔
      ∀ c ∈ s.cubes, cubeHit c ray t_min t_max = none) := by
  have H := sceneHitAux_spec ray t_min t_max s.cubes (fun _ => False) none t_max
    (fun _ => rfl) (fun b hb => absurd hb (by simp))
  constructor
  · intro r hr
    obtain ⟨h1, h2, _, hQ, hmin⟩ := H.2 r hr
    refine ⟨⟨h1, h2⟩, ?_, hmin⟩
    rcases hQ with hfalse | hmem
    · exact hfalse.elim
    · exact hmem
  · constructor
    · intro hres
      exact (H.1 hres).2
    · intro hall
      exact sceneHitAux_all_none ray t_min t_max s.cubes hall

/-- Witness for C2 at a concrete one-box scene. -/
theorem claim_C2_witness :
    ((1:ℚ)/1000 ≤ rec0.t ∧ rec0.t ≤ 1000) ∧
    (∃ c ∈ scene0.cubes, ∃ w, w ≤ (1000:ℚ) ∧ cubeHit c ray0 (1/1000) w = some rec0) ∧
    (∀ c ∈ scene0.cubes, ∀ rc, cubeHit c ray0 (1/1000) 1000 = some rc → rec0.t ≤ rc.t) :=
  (claim_C2 scene0 ray0 (1/1000) 1000).1 rec0 sceneHit_scene0_eval

/-- C3: every hit record returned by a box test or by the scene test carries a
normal whose dot product with the incoming ray direction is non-positive. -/
theorem claim_C3 (ray : Ray) (t_min t_max : ℚ) (r : HitRecord) :
    (∀ c : Cube, cubeHit c ray t_min t_max = some r → ray.direction.dot r.normal ≤ 0) ∧
    (∀ s : Scene, sceneHit s ray t_min t_max = some r → ray.direction.dot r.normal ≤ 0) := by
  constructor
  · intro c hc
    exact cubeHit_normal_opposes c ray t_min t_max r hc
  · intro s hs
    have H := sceneHitAux_spec ray t_min t_max s.cubes (fun _ => False) none t_max
      (fun _ => rfl) (fun b hb => absurd hb (by simp))
    obtain ⟨_, _, _, hQ, _⟩ := H.2 r hs
    rcases hQ with hfalse | ⟨c, _, w, _, hw⟩
    · exact hfalse.elim
    · exact cubeHit_normal_opposes c ray t_min w r hw

/-- Witness for C3 at the concrete scene hit. -/
theorem claim_C3_witness : ray0.direction.dot rec0.normal ≤ 0 :=
  (claim_C3 ray0 (1/1000) 1000 rec0).2 scene0 sceneHit_scene0_eval

/-! ### Claim C4 -/

/-- For a unit normal, subtracting the normal component of
`e • i + K • n` leaves exactly `e` times the tangential part of `i`:
the perpendicular component of the refracted direction obeys Snell's
relation whatever the scalar `K` along the normal is. -/
theorem snell_perp (i n : Vec3) (e K : ℚ) (hn : n.dot n = 1) :
    (e • i + K • n) - ((e • i + K • n).dot n) • n = e • (i - (i.dot n) • n) := by
  have hn2 : n.x * n.x + n.y * n.y + n.z * n.z = 1 := hn
  simp only [Vec3.add_def, Vec3.smul_def, Vec3.sub_def, Vec3.dot, Vec3.mk.injEq]
  refine ⟨?_, ?_, ?_⟩
  · linear_combination (-(K * n.x)) * hn2
  · linear_combination (-(K * n.y)) * hn2
  · linear_combination (-(K * n.z)) * hn2

/-- C4: `refract` returns none exactly when `eta² (1 − cos_i²) ≥ 1` with
`cos_i = −(incident · normal)`; otherwise it returns
`eta·incident + (eta·cos_i − cos_t)·normal` with
`cos_t = sqrt(1 − eta²(1 − cos_i²))`, and for a unit normal the returned
direction satisfies Snell's relation for that normal and `eta`. -/
theorem claim_C4 (sqrtFn : ℚ → ℚ) (incident normal : Vec3) (eta : ℚ) :
    (refract sqrtFn incident normal eta = none ↔
      eta * eta * (1 - (-(incident.dot normal)) * (-(incident.dot normal))) ≥ 1) ∧
    (∀ bent, refract sqrtFn incident normal eta = some bent →
      bent = eta • incident +
        (eta * (-(incident.dot normal)) -
          sqrtFn (1 - eta * eta *
            (1 - (-(incident.dot normal)) * (-(incident.dot normal))))) • normal ∧
      (normal.dot normal = 1 →
        bent - (bent.dot normal) • normal =
          eta • (incident - (incident.dot normal) • normal))) := by
  constructor
  · simp only [refract]
    by_cases hge :
        eta * eta * (1 - (-(incident.dot normal)) * (-(incident.dot normal))) ≥ 1
    · rw [if_pos hge]
      exact ⟨fun _ => hge, fun _ => rfl⟩
    · rw [if_neg hge]
      exact ⟨fun h => Option.noConfusion h, fun h => absurd h hge⟩
  · intro bent h
    simp only [refract] at h
    by_cases hge :
        eta * eta * (1 - (-(incident.dot normal)) * (-(incident.dot normal))) ≥ 1
    · rw [if_pos hge] at h
      exact Option.noConfusion h
    · rw [if_neg hge] at h
      have hb := Option.some.inj h
      refine ⟨hb.symm, fun hn => ?_⟩
      rw [← hb]
      exact snell_perp incident normal eta _ hn

def incident0 : Vec3 := ⟨0, 0, 1⟩

def normal0 : Vec3 := ⟨0, 0, 1⟩

def bent0 : Vec3 := ⟨0, 0, -1⟩

/-- Witness for C4: Snell's relation at a concrete refraction. -/
theorem claim_C4_witness :
    bent0 - (bent0.dot normal0) • normal0 =
      (1/2 : ℚ) • (incident0 - (incident0.dot normal0) • normal0) :=
  ((claim_C4 sqrt1 incident0 normal0 (1/2)).2 bent0
    (by norm_num [refract, sqrt1, incident0, normal0, bent0, Vec3.dot,
      Vec3.smul_def, Vec3.add_def])).2
    (by norm_num [normal0, Vec3.dot])

/-! ### Claims C5 and C6 -/

/-- C5: the transparent-material branch of `Material::scatter`: the relative
index `eta` is inverted exactly when the incidence cosine is positive, the
uniform draw is compared with `fresnel(|cos_i|, eta)·(1−transparency) +
reflectivity`; below the threshold the result is a (roughness-jittered)
reflection with unchanged attenuation, at or above it a successful refraction
scales the attenuation by the transparency, and a failed refraction falls
back to an unjittered mirror reflection with unscaled attenuation. -/
theorem claim_C5 (m : Material) (sqrtFn : ℚ → ℚ) (randUniform : ℚ) (randSphere : Vec3)
    (ray : Ray) (hit_point normal : Vec3) (tm : TextureManager) (u v : ℚ)
    (eta thr : ℚ)
    (htr : m.transparency > 0) (hri : m.refractive_index ≠ 1)
    (heta : eta = if (-(ray.direction.dot normal)) > 0
      then 1 / m.refractive_index else m.refractive_index)
    (hthr : thr = fresnel sqrtFn |(-(ray.direction.dot normal))| eta *
      (1 - m.transparency) + m.reflectivity) :
    ∃ res, m.scatter sqrtFn randUniform randSphere ray hit_point normal tm u v = some res ∧
      (randUniform < thr →
        res.attenuation = scatterBaseColor m tm u v ∧
        res.scattered_ray = Ray.new sqrtFn hit_point
          (if m.roughness > 0
            then normalize sqrtFn (reflect ray.direction normal + m.roughness • randSphere)
            else reflect ray.direction normal)) ∧
      (¬ randUniform < thr →
        (∀ rv, refract sqrtFn ray.direction normal eta = some rv →
          res.attenuation = m.transparency • scatterBaseColor m tm u v ∧
          res.scattered_ray = Ray.new sqrtFn hit_point rv) ∧
        (refract sqrtFn ray.direction normal eta = none →
          res.attenuation = scatterBaseColor m tm u v ∧
          res.scattered_ray = Ray.new sqrtFn hit_point (reflect ray.direction normal))) := by
  subst heta
  subst hthr
  simp only [Material.scatter]
  rw [if_pos (And.intro htr hri)]
  by_cases hlt : randUniform <
      fresnel sqrtFn |(-(ray.direction.dot normal))|
        (if (-(ray.direction.dot normal)) > 0
          then 1 / m.refractive_index else m.refractive_index) *
        (1 - m.transparency) + m.reflectivity
  · rw [if_pos hlt]
    refine ⟨_, rfl, fun _ => ⟨rfl, rfl⟩, fun hcon => absurd hlt hcon⟩
  · rw [if_neg hlt]
    cases hrf : refract sqrtFn ray.direction normal
        (if (-(ray.direction.dot normal)) > 0
          then 1 / m.refractive_index else m.refractive_index) with
    | none =>
      refine ⟨_, rfl, fun hcon => absurd hcon hlt, fun _ => ⟨?_, fun _ => ⟨rfl, rfl⟩⟩⟩
      intro rv hrv
      exact Option.noConfusion hrv
    | some rv =>
      refine ⟨_, rfl, fun hcon => absurd hcon hlt, fun _ => ⟨?_, ?_⟩⟩
      · intro rv2 hrv2
        have heq := Option.some.inj hrv2
        rw [← heq]
        exact ⟨rfl, rfl⟩
      · intro hcon
        exact Option.noConfusion hcon

/-- C6: `Material::scatter` returns a scatter result on every input — no
branch of the decision policy returns `None`. -/
theorem claim_C6 (m : Material) (sqrtFn : ℚ → ℚ) (randUniform : ℚ) (randSphere : Vec3)
    (ray : Ray) (hit_point normal : Vec3) (tm : TextureManager) (u v : ℚ) :
    ∃ res, m.scatter sqrtFn randUniform randSphere ray hit_point normal tm u v = some res := by
  simp only [Material.scatter]
  by_cases h1 : m.transparency > 0 ∧ m.refractive_index ≠ 1
  · rw [if_pos h1]
    by_cases h2 : randUniform <
        fresnel sqrtFn |(-(ray.direction.dot normal))|
          (if (-(ray.direction.dot normal)) > 0
            then 1 / m.refractive_index else m.refractive_index) *
          (1 - m.transparency) + m.reflectivity
    · rw [if_pos h2]
      exact ⟨_, rfl⟩
    · rw [if_neg h2]
      cases hrf : refract sqrtFn ray.direction normal
          (if (-(ray.direction.dot normal)) > 0
            then 1 / m.refractive_index else m.refractive_index) with
      | none => exact ⟨_, rfl⟩
      | some rv => exact ⟨_, rfl⟩
  · rw [if_neg h1]
    by_cases h2 : m.reflectivity > 0
    · rw [if_pos h2]
      exact ⟨_, rfl⟩
    · rw [if_neg h2]
      exact ⟨_, rfl⟩


/-- Witness for C5: the concrete glass material reflects below the threshold. -/
theorem claim_C5_witness :
    ∃ res, mat0.scatter zeroFn 0 Vec3.zeros ray0 Vec3.zeros normal0 tm0 0 0 = some res ∧
      ((0:ℚ) < 1/5 →
        res.attenuation = scatterBaseColor mat0 tm0 0 0 ∧
        res.scattered_ray = Ray.new zeroFn Vec3.zeros
          (if mat0.roughness > 0
            then normalize zeroFn
              (reflect ray0.direction normal0 + mat0.roughness • Vec3.zeros)
            else reflect ray0.direction normal0)) ∧
      (¬ (0:ℚ) < 1/5 →
        (∀ rv, refract zeroFn ray0.direction normal0 (2/3) = some rv →
          res.attenuation = mat0.transparency • scatterBaseColor mat0 tm0 0 0 ∧
          res.scattered_ray = Ray.new zeroFn Vec3.zeros rv) ∧
        (refract zeroFn ray0.direction normal0 (2/3) = none →
          res.attenuation = scatterBaseColor mat0 tm0 0 0 ∧
          res.scattered_ray = Ray.new zeroFn Vec3.zeros (reflect ray0.direction normal0))) :=
  claim_C5 mat0 zeroFn 0 Vec3.zeros ray0 Vec3.zeros normal0 tm0 0 0 (2/3) (1/5)
    (by norm_num [mat0]) (by norm_num [mat0])
    (by norm_num [mat0, ray0, normal0, Vec3.dot])
    (by norm_num [mat0, ray0, normal0, Vec3.dot, fresnel, zeroFn])

/-! ### Claim C7 -/

/-- C7: the radiance estimator is total — its recursion is structural on the
depth budget, each recursive call passing one less — and at depth `0` it
returns black for every scene, every random stream and every ray. -/
theorem claim_C7 (rt : Raytracer) (sqrtFn : ℚ → ℚ) (uniforms : ℕ → ℚ)
    (spheres : ℕ → Vec3) (inf : ℚ) (ray : Ray) :
    rayColor rt sqrtFn uniforms spheres inf ray 0 = Vec3.zeros := rfl

/-! ### Claim C9 -/

/-- C9: `sample_texture` is total: a missing texture id yields the magenta
sentinel, and for a loaded texture the wrapped-and-clamped pixel coordinates
lie inside the texture's bounds and select the returned pixel color. -/
theorem claim_C9 (tm : TextureManager) (texture_id : String) (u v : ℚ) :
    (tm.textures.lookup texture_id = none →
      sampleTexture tm texture_id u v = ⟨1, 0, 1⟩) ∧
    (∀ tex, tm.textures.lookup texture_id = some tex →
      0 < tex.width → 0 < tex.height →
      min (f32ToU32 (ratFract u * tex.width)) (tex.width - 1) < tex.width ∧
      min (f32ToU32 (ratFract v * tex.height)) (tex.height - 1) < tex.height ∧
      sampleTexture tm texture_id u v =
        ⟨((tex.pixels (min (f32ToU32 (ratFract u * tex.width)) (tex.width - 1))
             (min (f32ToU32 (ratFract v * tex.height)) (tex.height - 1))).1 : ℚ) / 255,
         ((tex.pixels (min (f32ToU32 (ratFract u * tex.width)) (tex.width - 1))
             (min (f32ToU32 (ratFract v * tex.height)) (tex.height - 1))).2.1 : ℚ) / 255,
         ((tex.pixels (min (f32ToU32 (ratFract u * tex.width)) (tex.width - 1))
             (min (f32ToU32 (ratFract v * tex.height)) (tex.height - 1))).2.2.1 : ℚ) / 255⟩) := by
  constructor
  · intro h
    unfold sampleTexture
    rw [h]
    rfl
  · intro tex hk hw hh
    refine ⟨lt_of_le_of_lt (min_le_right _ _) (Nat.sub_lt hw one_pos),
      lt_of_le_of_lt (min_le_right _ _) (Nat.sub_lt hh one_pos), ?_⟩
    unfold sampleTexture
    rw [hk]
    rfl

/-- Witness for C9 at a concrete 2×2 texture. -/
theorem claim_C9_witness :
    min (f32ToU32 (ratFract (1/2) * tex0.width)) (tex0.width - 1) < tex0.width ∧
    min (f32ToU32 (ratFract (1/2) * tex0.height)) (tex0.height - 1) < tex0.height ∧
    sampleTexture tm1 "stone" (1/2) (1/2) =
      ⟨((tex0.pixels (min (f32ToU32 (ratFract (1/2) * tex0.width)) (tex0.width - 1))
           (min (f32ToU32 (ratFract (1/2) * tex0.height)) (tex0.height - 1))).1 : ℚ) / 255,
       ((tex0.pixels (min (f32ToU32 (ratFract (1/2) * tex0.width)) (tex0.width - 1))
           (min (f32ToU32 (ratFract (1/2) * tex0.height)) (tex0.height - 1))).2.1 : ℚ) / 255,
       ((tex0.pixels (min (f32ToU32 (ratFract (1/2) * tex0.width)) (tex0.width - 1))
           (min (f32ToU32 (ratFract (1/2) * tex0.height)) (tex0.height - 1))).2.2.1 : ℚ) / 255⟩ :=
  (claim_C9 tm1 "stone" (1/2) (1/2)).2 tex0 (by rfl)
    (by norm_num [tex0]) (by norm_num [tex0])

/-! ### Claims C8 and C10 -/

theorem applyOps_cons (sinFn cosFn : ℚ → ℚ) (c : Camera) (op : CamOp) (rest : List CamOp) :
    applyOps sinFn cosFn c (op :: rest) = applyOps sinFn cosFn (applyOp sinFn cosFn c op) rest :=
  rfl

/-- Rust `f32::clamp` lands in `[lo, hi]` whenever `lo ≤ hi`. -/
theorem clampQ_mem (x lo hi : ℚ) (h : lo ≤ hi) :
    lo ≤ clampQ x lo hi ∧ clampQ x lo hi ≤ hi := by
  unfold clampQ
  split_ifs with h1 h2
  · exact ⟨le_refl _, h⟩
  · exact ⟨h, le_refl _⟩
  · exact ⟨le_of_not_lt h1, le_of_not_lt h2⟩

theorem piF32_bound : (1:ℚ)/10 ≤ piF32 - 1/10 := by norm_num [piF32]

theorem applyOp_min_distance (sinFn cosFn : ℚ → ℚ) (c : Camera) (op : CamOp) :
    (applyOp sinFn cosFn c op).min_distance = c.min_distance := by
  cases op <;> rfl

theorem applyOp_max_distance (sinFn cosFn : ℚ → ℚ) (c : Camera) (op : CamOp) :
    (applyOp sinFn cosFn c op).max_distance = c.max_distance := by
  cases op <;> rfl

/-- Any single camera mutation leaves the phi clamp range satisfied once it
holds: `rotate` re-clamps, `zoom` leaves phi untouched. -/
theorem applyOp_phi_inv (sinFn cosFn : ℚ → ℚ) (c : Camera) (op : CamOp)
    (h : 1/10 ≤ c.phi ∧ c.phi ≤ piF32 - 1/10) :
    1/10 ≤ (applyOp sinFn cosFn c op).phi ∧
      (applyOp sinFn cosFn c op).phi ≤ piF32 - 1/10 := by
  cases op with
  | rot dt dp => exact clampQ_mem _ _ _ piF32_bound
  | zoomBy d => exact h

theorem applyOps_phi_inv (sinFn cosFn : ℚ → ℚ) :
    ∀ (ops : List CamOp) (c : Camera),
      (1/10 ≤ c.phi ∧ c.phi ≤ piF32 - 1/10) →
      1/10 ≤ (applyOps sinFn cosFn c ops).phi ∧
        (applyOps sinFn cosFn c ops).phi ≤ piF32 - 1/10 := by
  intro ops
  induction ops with
  | nil => intro c h; exact h
  | cons op rest ih =>
    intro c h
    rw [applyOps_cons]
    exact ih _ (applyOp_phi_inv sinFn cosFn c op h)

/-- Any single camera mutation preserves the distance clamp range:
`zoom` re-clamps, `rotate` leaves the distance untouched. -/
theorem applyOp_dist_inv (sinFn cosFn : ℚ → ℚ) (c : Camera) (op : CamOp)
    (hm : c.min_distance ≤ c.max_distance)
    (h : c.min_distance ≤ c.distance ∧ c.distance ≤ c.max_distance) :
    (applyOp sinFn cosFn c op).min_distance ≤ (applyOp sinFn cosFn c op).distance ∧
      (applyOp sinFn cosFn c op).distance ≤ (applyOp sinFn cosFn c op).max_distance := by
  cases op with
  | rot dt dp => exact h
  | zoomBy d => exact clampQ_mem _ _ _ hm

theorem applyOps_dist_inv (sinFn cosFn : ℚ → ℚ) :
    ∀ (ops : List CamOp) (c : Camera),
      c.min_distance ≤ c.max_distance →
      (c.min_distance ≤ c.distance ∧ c.distance ≤ c.max_distance) →
      (applyOps sinFn cosFn c ops).min_distance ≤ (applyOps sinFn cosFn c ops).distance ∧
        (applyOps sinFn cosFn c ops).distance ≤ (applyOps sinFn cosFn c ops).max_distance := by
  intro ops
  induction ops with
  | nil => intro c _ h; exact h
  | cons op rest ih =>
    intro c hm h
    rw [applyOps_cons]
    refine ih _ ?_ (applyOp_dist_inv sinFn cosFn c op hm h)
    rw [applyOp_min_distance, applyOp_max_distance]
    exact hm

/-- Every camera mutation ends in `update_position`, so the position is the
spherical offset from the target afterwards. -/
theorem applyOp_pos (sinFn cosFn : ℚ → ℚ) (c : Camera) (op : CamOp) :
    positionConsistent sinFn cosFn (applyOp sinFn cosFn c op) := by
  cases op <;> rfl

/-- C8: over any sequence of `rotate`/`zoom` calls, a rotation anywhere in the
sequence leaves `phi` within `[0.1, π − 0.1]` at the end, a zoom anywhere
leaves the distance within `[min_distance, max_distance]` at the end, and
after any non-empty sequence the position equals the target plus the
spherical offset of the final orbital parameters. -/
theorem claim_C8 (sinFn cosFn : ℚ → ℚ) (c : Camera) (ops : List CamOp)
    (hm : c.min_distance ≤ c.max_distance) :
    ((∃ dt dp, CamOp.rot dt dp ∈ ops) →
      1/10 ≤ (applyOps sinFn cosFn c ops).phi ∧
      (applyOps sinFn cosFn c ops).phi ≤ piF32 - 1/10) ∧
    ((∃ d, CamOp.zoomBy d ∈ ops) →
      (applyOps sinFn cosFn c ops).min_distance ≤ (applyOps sinFn cosFn c ops).distance ∧
      (applyOps sinFn cosFn c ops).distance ≤ (applyOps sinFn cosFn c ops).max_distance) ∧
    (ops ≠ [] → positionConsistent sinFn cosFn (applyOps sinFn cosFn c ops)) := by
  induction ops generalizing c with
  | nil =>
    refine ⟨?_, ?_, ?_⟩
    · rintro ⟨dt, dp, hmem⟩
      exact absurd hmem (List.not_mem_nil _)
    · rintro ⟨d, hmem⟩
      exact absurd hmem (List.not_mem_nil _)
    · intro hne
      exact absurd rfl hne
  | cons op rest ih =>
    have hm2 : (applyOp sinFn cosFn c op).min_distance ≤
        (applyOp sinFn cosFn c op).max_distance := by
      rw [applyOp_min_distance, applyOp_max_distance]
      exact hm
    have IH := ih (applyOp sinFn cosFn c op) hm2
    refine ⟨?_, ?_, ?_⟩
    · rintro ⟨dt, dp, hmem⟩
      rw [applyOps_cons]
      rcases List.mem_cons.mp hmem with heq | hrest
      · rw [← heq]
        exact applyOps_phi_inv sinFn cosFn rest _ (clampQ_mem _ _ _ piF32_bound)
      · exact IH.1 ⟨dt, dp, hrest⟩
    · rintro ⟨d, hmem⟩
      rw [applyOps_cons]
      rcases List.mem_cons.mp hmem with heq | hrest
      · rw [← heq]
        exact applyOps_dist_inv sinFn cosFn rest _
          (by rw [applyOp_min_distance, applyOp_max_distance]; exact hm)
          (clampQ_mem _ _ _ hm)
      · exact IH.2.1 ⟨d, hrest⟩
    · intro _
      rw [applyOps_cons]
      cases rest with
      | nil => exact applyOp_pos sinFn cosFn c op
      | cons op2 rest2 => exact IH.2.2 (by simp)

def camera0 : Camera := Camera.new zeroFn zeroFn ⟨0, 0, 0⟩ 10 45 (16/9)

def ops0 : List CamOp := [CamOp.rot 1 1, CamOp.zoomBy 5]

/-- Witness for C8 at a concrete camera and mutation sequence. -/
theorem claim_C8_witness :
    (1/10 ≤ (applyOps zeroFn zeroFn camera0 ops0).phi ∧
      (applyOps zeroFn zeroFn camera0 ops0).phi ≤ piF32 - 1/10) ∧
    ((applyOps zeroFn zeroFn camera0 ops0).min_distance ≤
        (applyOps zeroFn zeroFn camera0 ops0).distance ∧
      (applyOps zeroFn zeroFn camera0 ops0).distance ≤
        (applyOps zeroFn zeroFn camera0 ops0).max_distance) ∧
    positionConsistent zeroFn zeroFn (applyOps zeroFn zeroFn camera0 ops0) := by
  have H := claim_C8 zeroFn zeroFn camera0 ops0
    (by norm_num [camera0, Camera.new, updatePosition])
  exact ⟨H.1 ⟨1, 1, by simp [ops0]⟩, H.2.1 ⟨5, by simp [ops0]⟩, H.2.2 (by simp [ops0])⟩

/-- C10: `Camera::new` stores the constructor's distance argument verbatim —
no clamping against `[min_distance, max_distance]` (fixed to `[2, 50]`) — so
an initial distance of `100` exceeds `max_distance` and flows into the derived
position until the first `zoom` call clamps it; `rotate` never re-clamps the
distance. -/
theorem claim_C10 :
    (∀ (sinFn cosFn : ℚ → ℚ) (target : Vec3) (distance fov aspect : ℚ),
      (Camera.new sinFn cosFn target distance fov aspect).distance = distance) ∧
    (∀ (sinFn cosFn : ℚ → ℚ) (c : Camera) (dt dp : ℚ),
      (Camera.rotate sinFn cosFn c dt dp).distance = c.distance) ∧
    (Camera.new oneFn oneFn ⟨0, 0, 0⟩ 100 45 1).max_distance <
      (Camera.new oneFn oneFn ⟨0, 0, 0⟩ 100 45 1).distance ∧
    (Camera.new oneFn oneFn ⟨0, 0, 0⟩ 100 45 1).position.y = 100 ∧
    (Camera.rotate oneFn oneFn (Camera.new oneFn oneFn ⟨0, 0, 0⟩ 100 45 1) 1 1).distance
      = 100 ∧
    (Camera.zoom oneFn oneFn (Camera.new oneFn oneFn ⟨0, 0, 0⟩ 100 45 1) 0).distance = 50 := by
  refine ⟨fun _ _ _ _ _ _ => rfl, fun _ _ _ _ _ => rfl, ?_, ?_, rfl, ?_⟩
  · norm_num [Camera.new, updatePosition]
  · norm_num [Camera.new, updatePosition, sphericalOffset, oneFn, Vec3.add_def]
  · norm_num [Camera.zoom, Camera.new, updatePosition, clampQ]

end Proy2
